import Mathlib

/-!
Verification of the CubeSat nightly-test telemetry pipeline
(`parser.py`, `ai.py`, `gen.py`) against its design specification.

The binary stream is modelled as a `List Nat` of byte values; machine
integers are `Nat`/`Int` (signed 16-bit fields are decoded explicitly);
SQLite `REAL` columns and Python float arithmetic are modelled as exact
rationals `ℚ`; fallible operations return `Option`.
-/

set_option maxRecDepth 10000

namespace CubeSat

/-- `MAGIC_ID` from `parser.py` / `gen.py`: framing marker `0xABCD1234`. -/
def MAGIC_ID : Nat := 0xABCD1234

/-- Byte width of the packed header `"<I I Q H h B h h I H"`
(4+4+8+2+2+1+2+2+4+2 = 31, little-endian, no padding). -/
def HEADER_SIZE : Nat := 31

/-- `PACKET_SIZE = struct.calcsize(PACKET_HEADER_FMT) + struct.calcsize(CRC_FMT)`. -/
def PACKET_SIZE : Nat := HEADER_SIZE + 4

/-- Value of a little-endian byte list (least significant byte first),
modelling `struct.unpack` of an unsigned little-endian field. -/
def le_bytes_val (bs : List Nat) : Nat :=
  bs.foldr (fun b acc => b + 256 * acc) 0

/-- Little-endian encoding of a 32-bit value, modelling `struct.pack("<I", n)`
(from `gen.py`, used to build concrete well-formed records). -/
def le4 (n : Nat) : List Nat :=
  [n % 256, n / 256 % 256, n / 65536 % 256, n / 16777216 % 256]

/-- One bit-step of the reflected CRC-32 (polynomial `0xEDB88320`). -/
def crc32_step (c : Nat) : Nat :=
  if c % 2 = 1 then (c / 2) ^^^ 0xEDB88320 else c / 2

/-- Fold one byte into the running CRC: xor into the low byte, then
eight bit-steps. -/
def crc32_update (c b : Nat) : Nat :=
  crc32_step^[8] (c ^^^ b)

/-- `compute_crc32` from `parser.py`: `zlib.crc32(payload) & 0xFFFFFFFF`,
the standard reflected CRC-32 with initial value and final xor `0xFFFFFFFF`. -/
def compute_crc32 (bs : List Nat) : Nat :=
  (0xFFFFFFFF ^^^ bs.foldl crc32_update 0xFFFFFFFF) &&& 0xFFFFFFFF

/-- Interpret a 16-bit unsigned value as the signed `h` (int16) field
of `struct.unpack`. -/
def toI16 (n : Nat) : Int :=
  if n < 32768 then (n : Int) else (n : Int) - 65536

/-- A decoded record header: the tuple produced by
`struct.unpack(PACKET_HEADER_FMT, payload)` in `parse_iteration_once`. -/
structure RawPacket where
  magic : Nat
  packet_id : Nat
  ts_ms : Nat
  battery_mv : Nat
  I_batt_mA : Int
  soc_uint8 : Nat
  temp_centiC : Int
  solar_int16 : Int
  altitude_uint32 : Nat
  error_flags : Nat
deriving DecidableEq, Repr

/-- Unsigned little-endian field of width `len` at byte offset `off`. -/
def fld (p : List Nat) (off len : Nat) : Nat :=
  le_bytes_val ((p.drop off).take len)

/-- `struct.unpack("<I I Q H h B h h I H", payload)`: fixed-offset
little-endian fields of the 31-byte payload. -/
def unpack_header (p : List Nat) : RawPacket :=
  { magic := fld p 0 4
    packet_id := fld p 4 4
    ts_ms := fld p 8 8
    battery_mv := fld p 16 2
    I_batt_mA := toI16 (fld p 18 2)
    soc_uint8 := fld p 20 1
    temp_centiC := toI16 (fld p 21 2)
    solar_int16 := toI16 (fld p 23 2)
    altitude_uint32 := fld p 25 4
    error_flags := fld p 29 2 }

/-- `payload = chunk[:PACKET_SIZE - 4]`. -/
def payloadOf (chunk : List Nat) : List Nat := chunk.take (PACKET_SIZE - 4)

/-- `recv_crc = struct.unpack(CRC_FMT, chunk[PACKET_SIZE - 4:])[0]`. -/
def recv_crc_of (chunk : List Nat) : Nat := le_bytes_val (chunk.drop (PACKET_SIZE - 4))

/-- `crc_ok = (recv_crc == computed_crc)` for one record chunk. -/
def crc_ok_of (chunk : List Nat) : Bool :=
  recv_crc_of chunk == compute_crc32 (payloadOf chunk)

/-- `framing_ok = (magic == MAGIC_ID)` for one record chunk. -/
def framing_ok_of (chunk : List Nat) : Bool :=
  (unpack_header (payloadOf chunk)).magic == MAGIC_ID

/-! ## Persisted packet rows and the per-record step of `parse_iteration_once`

The SQLite `packets` table is modelled as a `List Row` keyed by
`packet_id` (`INSERT OR REPLACE`).  Columns that only mirror strings or
the validation-flag bookkeeping (`ts_iso`, `validation_flags`,
`anomaly_flag`, `anomaly_reasons`, `notes`, `processed_at_ms`) are not
modelled: they do not influence control flow, the cursor, the error
counters, or any numeric column a claim mentions.  Python float
arithmetic on the derived fields is modelled exactly over `ℚ`. -/

/-- The summary of the most recently persisted packet that
`parse_iteration_once` keeps in `last_stored` (also the shape returned
by `get_last_stored_info`). -/
structure LastStored where
  packet_id : Nat
  ts_ms : Nat
  batt_v : ℚ
  temp_c : ℚ
deriving DecidableEq, Repr

/-- One persisted row of the `packets` table (claim-relevant columns). -/
structure Row where
  packet_id : Nat
  ts_ms : Nat
  battery_mv : Nat
  batt_v : ℚ
  batt_current_ma : Int
  soc_percent : Nat
  temp_centi : Int
  temp_c : ℚ
  solar_current_ma : Int
  altitude_m : Nat
  error_flags : Nat
  recv_crc : Nat
  crc_ok : Bool
  framing_ok : Bool
  power_mw : ℚ
  delta_batt_v : Option ℚ
  delta_temp_c : Option ℚ
  time_delta_ms : Option Int
deriving DecidableEq, Repr

/-- Per-pass counters of `parse_iteration_once` (`missing_packets`,
`duplicates` and `anomalies` feed only the CSV metrics log and the
unmodelled validation-flag columns). -/
structure Metrics where
  processed : Nat
  crc_failures : Nat
  framing_errors : Nat
deriving DecidableEq, Repr

def metrics0 : Metrics := ⟨0, 0, 0⟩

/-- Loop state of one reader invocation: counters, the in-memory
`last_stored` summary, and the `packets` table. -/
structure PState where
  metrics : Metrics
  lastStored : Option LastStored
  db : List Row
deriving DecidableEq, Repr

/-- `get_last_stored_info`: the row with the greatest `packet_id`
(`ORDER BY packet_id DESC LIMIT 1`), summarised. -/
def get_last_stored_info (db : List Row) : Option LastStored :=
  db.foldl
    (fun acc r =>
      match acc with
      | none => some ⟨r.packet_id, r.ts_ms, r.batt_v, r.temp_c⟩
      | some a =>
          if a.packet_id < r.packet_id then some ⟨r.packet_id, r.ts_ms, r.batt_v, r.temp_c⟩
          else acc)
    none

/-- `insert_packet`: `INSERT OR REPLACE INTO packets` keyed by the
`packet_id` primary key. -/
def insert_packet (db : List Row) (r : Row) : List Row :=
  if db.any (fun x => x.packet_id == r.packet_id) then
    db.map (fun x => if x.packet_id == r.packet_id then r else x)
  else
    db ++ [r]

/-- The enriched row built for a framing- and CRC-valid packet: unit
conversions, instantaneous power, and deltas against the previous
persisted packet (`None` when there is no previous packet). -/
def buildRow (lastStored : Option LastStored) (pkt : RawPacket) (recv_crc : Nat) : Row :=
  let batt_v : ℚ := (pkt.battery_mv : ℚ) / 1000
  let temp_c : ℚ := (pkt.temp_centiC : ℚ) / 100
  let power_mw : ℚ := batt_v * (pkt.I_batt_mA : ℚ)
  { packet_id := pkt.packet_id
    ts_ms := pkt.ts_ms
    battery_mv := pkt.battery_mv
    batt_v := batt_v
    batt_current_ma := pkt.I_batt_mA
    soc_percent := pkt.soc_uint8
    temp_centi := pkt.temp_centiC
    temp_c := temp_c
    solar_current_ma := pkt.solar_int16
    altitude_m := pkt.altitude_uint32
    error_flags := pkt.error_flags
    recv_crc := recv_crc
    crc_ok := true
    framing_ok := true
    power_mw := power_mw
    delta_batt_v := lastStored.map (fun p => batt_v - p.batt_v)
    delta_temp_c := lastStored.map (fun p => temp_c - p.temp_c)
    time_delta_ms := lastStored.map (fun p => (pkt.ts_ms : Int) - (p.ts_ms : Int)) }

/-- One iteration of the `while` loop body of `parse_iteration_once` on
a full `PACKET_SIZE` chunk at byte position `cursor`: framing check
first (skip, count, advance), then CRC check (skip, count, advance),
else build the enriched row and attempt to persist it.  `insOk` is the
outcome of the `try: insert_packet ... except:` block: on a failed
insert the source logs, leaves the table unchanged and *still* updates
the in-memory `last_stored` to this (non-persisted) packet, counts it
as processed, and advances.  Every branch advances the cursor by
`PACKET_SIZE`, mirroring the three `cursor += PACKET_SIZE` statements
of the source. -/
def processRecord (st : PState) (cursor : Nat) (chunk : List Nat) (insOk : Bool) :
    PState × Nat :=
  let payload := payloadOf chunk
  let recv_crc := recv_crc_of chunk
  let computed_crc := compute_crc32 payload
  let pkt := unpack_header payload
  if pkt.magic ≠ MAGIC_ID then
    ({ st with metrics := { st.metrics with framing_errors := st.metrics.framing_errors + 1 } },
     cursor + PACKET_SIZE)
  else if recv_crc ≠ computed_crc then
    ({ st with metrics := { st.metrics with crc_failures := st.metrics.crc_failures + 1 } },
     cursor + PACKET_SIZE)
  else
    let row := buildRow st.lastStored pkt recv_crc
    ({ metrics := { st.metrics with processed := st.metrics.processed + 1 }
       lastStored := some ⟨pkt.packet_id, pkt.ts_ms, row.batt_v, row.temp_c⟩
       db := if insOk then insert_packet st.db row else st.db },
     cursor + PACKET_SIZE)

/-! ## Offset checkpoint file (`read_last_offset` / `write_last_offset`)

A checkpoint file is modelled as `Option String` (`none` = the file does
not exist).  `pyInt` models `int(s)` on a plain decimal string: optional
sign followed by digits; any other content raises in Python, which the
callers catch. -/

/-- Numeric value of a digit list (most significant first). -/
def digitsVal (l : List Char) : Nat :=
  l.foldl (fun a c => 10 * a + (c.toNat - 48)) 0

/-- Python `str.strip()`: remove leading and trailing whitespace. -/
def pystrip (s : String) : String :=
  ⟨((s.data.dropWhile Char.isWhitespace).reverse.dropWhile Char.isWhitespace).reverse⟩

/-- `int(s)` on an already-stripped string: `none` models the
`ValueError` raised on anything but an optionally signed decimal
numeral. -/
def pyInt : String → Option Int
  | s =>
    match s.data with
    | [] => none
    | '-' :: rest =>
        if rest ≠ [] ∧ rest.all Char.isDigit then some (-(digitsVal rest : Int)) else none
    | '+' :: rest =>
        if rest ≠ [] ∧ rest.all Char.isDigit then some (digitsVal rest : Int) else none
    | l => if l.all Char.isDigit then some (digitsVal l : Int) else none

/-- `read_last_offset` from `parser.py`: 0 when the file is absent; else
`int(content.strip() or "0")`, with any exception degraded to 0. -/
def read_last_offset (fs : Option String) : Int :=
  match fs with
  | none => 0
  | some s =>
      let t := pystrip s
      if t = "" then 0 else (pyInt t).getD 0

/-- `read_last_id` from `ai.py`: -1 when the file is absent; else
`int(content.strip())`, with any exception degraded to -1. -/
def read_last_id (fs : Option String) : Int :=
  match fs with
  | none => -1
  | some s => (pyInt (pystrip s)).getD (-1)

/-! ## The reader loop of `parse_iteration_once`

The loop consumes one `PACKET_SIZE` chunk at a time while
`cursor + PACKET_SIZE ≤ file_size`; the source re-reads the file size
each iteration, which over a fixed stream is constant.  The redundant
`len(chunk) < PACKET_SIZE` re-check can never fire on a fixed stream. -/

/-- Every branch of the loop body advances the cursor by exactly
`PACKET_SIZE`. -/
theorem processRecord_snd (st : PState) (c : Nat) (chunk : List Nat) (insOk : Bool) :
    (processRecord st c chunk insOk).2 = c + PACKET_SIZE := by
  simp only [processRecord]
  repeat' split
  all_goals rfl

/-- The `while True` loop: process whole records from `cursor` until
fewer than `PACKET_SIZE` bytes remain.  `insOks` is the environment's
per-record insert outcome, indexed by the record's byte offset. -/
def parseLoop (stream : List Nat) (cursor : Nat) (st : PState) (insOks : Nat → Bool) :
    PState × Nat :=
  if _h : cursor + PACKET_SIZE ≤ stream.length then
    let r := processRecord st cursor ((stream.drop cursor).take PACKET_SIZE) (insOks cursor)
    parseLoop stream r.2 r.1 insOks
  else
    (st, cursor)
termination_by stream.length - cursor
decreasing_by
  have hc :=
    processRecord_snd st cursor ((stream.drop cursor).take PACKET_SIZE) (insOks cursor)
  simp only [hc, PACKET_SIZE, HEADER_SIZE] at *
  omega

/-- Result of one reader invocation: final loop state, final cursor,
and whether/what `write_last_offset` persisted. -/
structure IterResult where
  state : PState
  finalCursor : Nat
  wrote : Bool
  written : Nat
deriving DecidableEq, Repr

/-- `parse_iteration_once` over a fixed stream: load the stored offset;
if the telemetry file is absent do nothing (and write nothing); else
reset the offset to 0 when it exceeds the stream length, consume whole
records (each DB insert attempt's outcome given by `insOks`), and
unconditionally persist the final cursor.  Negative stored offsets
(never produced by `write_last_offset`) are outside the model: the
source would raise at `f.seek`. -/
def parse_iteration_once (stream? : Option (List Nat)) (offsetFile : Option String)
    (db0 : List Row) (insOks : Nat → Bool) : IterResult :=
  let last_offset : Int := read_last_offset offsetFile
  match stream? with
  | none => ⟨⟨metrics0, none, db0⟩, last_offset.toNat, false, 0⟩
  | some s =>
      let start : Nat := if (s.length : Int) < last_offset then 0 else last_offset.toNat
      let st0 : PState := ⟨metrics0, get_last_stored_info db0, db0⟩
      let (st, fin) := parseLoop s start st0 insOks
      ⟨st, fin, true, fin⟩

/-! ## The rolling anomaly engine (`ai.py`)

The engine reads rows back from SQLite, so a channel value is modelled
as an `SqlVal` (it may be `NULL`, an integer, a `REAL`, or text); the
`try: int(x) except: None` conversions become `toIntOpt`.  Window
statistics use exact rational arithmetic (Python's `statistics.mean`
and `statistics.pstdev` are exact on integer inputs up to the final
float square root; the 3-sigma comparisons against
`mean ± SIGMA·pstdev` are stated over `ℝ` with a real square root and
decided via the equivalent squared rational comparison). -/

def ROLLING_WINDOW : Nat := 30

/-- `SIGMA = 3.0` from `ai.py`. -/
def SIGMA : ℚ := 3

/-- `TEMP_HIGH = 5000` centi-degrees. -/
def TEMP_HIGH : Int := 5000

/-- `TEMP_LOW = -2000` centi-degrees. -/
def TEMP_LOW : Int := -2000

/-- A value read back from a SQLite column. -/
inductive SqlVal where
  | null
  | intV (n : Int)
  | realV (q : ℚ)
  | textV (s : String)
deriving DecidableEq, Repr

/-- Python `int(q)` on a rational: truncation toward zero. -/
def ratTrunc (q : ℚ) : Int := q.num.tdiv (q.den : Int)

/-- `int(x) if x is not None else None` under `try/except`:
`NULL` stays absent, integers pass through, `REAL`s truncate toward
zero, text parses as a stripped decimal numeral or fails to `None`. -/
def toIntOpt : SqlVal → Option Int
  | .null => none
  | .intV n => some n
  | .realV q => some (ratTrunc q)
  | .textV s => pyInt (pystrip s)

/-- `deque(maxlen=ROLLING_WINDOW).append`: append and evict
oldest-first beyond capacity. -/
def push (w : List Int) (x : Int) : List Int :=
  let w2 := w ++ [x]
  w2.drop (w2.length - ROLLING_WINDOW)

/-- `statistics.mean` over the window (exact). -/
def meanQ (w : List Int) : ℚ :=
  (w.map (fun x => (x : ℚ))).sum / (w.length : ℚ)

/-- Population variance of the window (exact); `statistics.pstdev` is
its square root. -/
def pvarQ (w : List Int) : ℚ :=
  (w.map (fun x => ((x : ℚ) - meanQ w) ^ 2)).sum / (w.length : ℚ)

/-- `std > 0 and x < mean - SIGMA * std` with `std = √pvariance`,
decided by the equivalent squared comparison over `ℚ`. -/
def sigmaDrop (w : List Int) (x : Int) : Bool :=
  decide (0 < pvarQ w ∧ (x : ℚ) < meanQ w ∧ SIGMA ^ 2 * pvarQ w < (meanQ w - (x : ℚ)) ^ 2)

/-- `std > 0 and x > mean + SIGMA * std` with `std = √pvariance`,
decided by the equivalent squared comparison over `ℚ`. -/
def sigmaSpike (w : List Int) (x : Int) : Bool :=
  decide (0 < pvarQ w ∧ meanQ w < (x : ℚ) ∧ SIGMA ^ 2 * pvarQ w < ((x : ℚ) - meanQ w) ^ 2)

/-- The source comparison `x < mean - SIGMA * std` (with
`std = √pvariance` over `ℝ`), as written in `check_rules_for_row`. -/
def dropsBelowSigma (w : List Int) (x : Int) : Prop :=
  (x : ℝ) < (meanQ w : ℝ) - (SIGMA : ℝ) * Real.sqrt ((pvarQ w : ℝ))

/-- The source comparison `x > mean + SIGMA * std` (with
`std = √pvariance` over `ℝ`), as written in `check_rules_for_row`. -/
def exceedsSigma (w : List Int) (x : Int) : Prop :=
  (meanQ w : ℝ) + (SIGMA : ℝ) * Real.sqrt ((pvarQ w : ℝ)) < (x : ℝ)

/-- The four process-lifetime rolling deques `roll_v/roll_i/roll_p/roll_t`. -/
structure Windows where
  v : List Int
  i : List Int
  p : List Int
  t : List Int
deriving DecidableEq, Repr

def emptyWindows : Windows := ⟨[], [], [], []⟩

/-- A `packets` row as seen by `ai.py` (`SELECT *` with `sqlite3.Row`);
the four channel columns are raw SQLite values. -/
structure AiRow where
  packet_id : Int
  ts_ms : Int
  battery_mv : SqlVal
  batt_current_ma : SqlVal
  power_mw : SqlVal
  temp_centi : SqlVal
deriving DecidableEq, Repr

/-- The `roll_v` deque after the push step of `check_rules_for_row`
(unchanged when the channel value is absent or non-convertible). -/
def rollV (w : Windows) (row : AiRow) : List Int :=
  match toIntOpt row.battery_mv with | some x => push w.v x | none => w.v

/-- The `roll_i` deque after the push step of `check_rules_for_row`. -/
def rollI (w : Windows) (row : AiRow) : List Int :=
  match toIntOpt row.batt_current_ma with | some x => push w.i x | none => w.i

/-- The `roll_p` deque after the push step of `check_rules_for_row`. -/
def rollP (w : Windows) (row : AiRow) : List Int :=
  match toIntOpt row.power_mw with | some x => push w.p x | none => w.p

/-- The `roll_t` deque after the push step of `check_rules_for_row`. -/
def rollT (w : Windows) (row : AiRow) : List Int :=
  match toIntOpt row.temp_centi with | some x => push w.t x | none => w.t

/-- Voltage-drop rule of `check_rules_for_row`: requires a present value,
post-push window statistics (`≥ 2` samples), `std > 0` and
`v < mean - SIGMA * std`. -/
def voltTags (w : Windows) (row : AiRow) : List (String × String) :=
  match toIntOpt row.battery_mv with
  | some x =>
      if 2 ≤ (push w.v x).length ∧ sigmaDrop (push w.v x) x = true then
        [("VOLTAGE_DROP", "major")]
      else []
  | none => []

/-- Current-spike rule of `check_rules_for_row`. -/
def currTags (w : Windows) (row : AiRow) : List (String × String) :=
  match toIntOpt row.batt_current_ma with
  | some x =>
      if 2 ≤ (push w.i x).length ∧ sigmaSpike (push w.i x) x = true then
        [("CURRENT_SPIKE", "major")]
      else []
  | none => []

/-- Power-spike rule of `check_rules_for_row`. -/
def powerTags (w : Windows) (row : AiRow) : List (String × String) :=
  match toIntOpt row.power_mw with
  | some x =>
      if 2 ≤ (push w.p x).length ∧ sigmaSpike (push w.p x) x = true then
        [("POWER_SPIKE", "major")]
      else []
  | none => []

/-- Temperature rules of `check_rules_for_row`: fixed thresholds
(critical) and the statistical rise rule (major). -/
def tempTags (w : Windows) (row : AiRow) : List (String × String) :=
  match toIntOpt row.temp_centi with
  | some x =>
      (if TEMP_HIGH < x then [("TEMP_HIGH", "critical")] else []) ++
      (if x < TEMP_LOW then [("TEMP_LOW", "critical")] else []) ++
      (if 2 ≤ (push w.t x).length ∧ sigmaSpike (push w.t x) x = true then
        [("TEMP_RISE", "major")]
      else [])
  | none => []

/-- `check_rules_for_row`: convert the four channel values, push each
available one into its rolling window, then evaluate the rules against
the post-push statistics.  Returns the `(tag, severity)` list and the
updated windows. -/
def check_rules_for_row (w : Windows) (row : AiRow) : List (String × String) × Windows :=
  (voltTags w row ++ currTags w row ++ powerTags w row ++ tempTags w row,
   ⟨rollV w row, rollI w row, rollP w row, rollT w row⟩)

/-- One anomaly record destined for `ai_anomalies` and the JSONL feed
(the JSON `details` snapshot carries no constraint a claim mentions). -/
structure Anom where
  packet_id : Int
  ts_ms : Int
  tag : String
  severity : String
deriving DecidableEq, Repr

/-- `INSERT OR IGNORE` under the `ux_ai_packet_tag` unique index:
a row whose `(packet_id, tag)` already exists is a no-op. -/
def insertOrIgnore (tbl : List Anom) (a : Anom) : List Anom :=
  if tbl.any (fun b => b.packet_id == a.packet_id && b.tag == a.tag) then tbl
  else tbl ++ [a]

/-- Insert a row keeping ascending `packet_id` order. -/
def insertSorted (r : AiRow) : List AiRow → List AiRow
  | [] => [r]
  | x :: xs => if r.packet_id ≤ x.packet_id then r :: x :: xs else x :: insertSorted r xs

/-- `ORDER BY packet_id ASC`. -/
def sortById (l : List AiRow) : List AiRow := l.foldr insertSorted []

/-- `warmup_rolls`: seed the windows from the most recent
`ROLLING_WINDOW` persisted packets in ascending-id order, skipping
channel values that are absent or non-convertible. -/
def warmup_rolls (packets : List AiRow) (w : Windows) : Windows :=
  let rows := ((sortById packets).reverse.take ROLLING_WINDOW).reverse
  rows.foldl
    (fun w row =>
      { v := match toIntOpt row.battery_mv with | some x => push w.v x | none => w.v
        i := match toIntOpt row.batt_current_ma with | some x => push w.i x | none => w.i
        p := match toIntOpt row.power_mw with | some x => push w.p x | none => w.p
        t := match toIntOpt row.temp_centi with | some x => push w.t x | none => w.t })
    w

/-- `SELECT * FROM packets WHERE packet_id > ? ORDER BY packet_id ASC`. -/
def selectNew (packets : List AiRow) (last_id : Int) : List AiRow :=
  sortById (packets.filter (fun r => last_id < r.packet_id))

/-- Engine state across `run_once` calls: the persisted high-water mark,
the `ai_anomalies` table, the process-lifetime windows and the JSONL
feed.  The cursor file itself is modelled by `read_last_id` above; here
the loaded integer is carried directly. -/
structure AiState where
  last_id : Int
  anomalies : List Anom
  windows : Windows
  feed : List Anom
deriving DecidableEq, Repr

/-- Per-pass observables of `run_once`. -/
structure RunInfo where
  max_seen : Int
  wroteLastId : Bool
  processed : Nat
deriving DecidableEq, Repr

/-- Fold state of the row loop in `run_once`. -/
structure PassAcc where
  max_seen : Int
  w : Windows
  collected : List Anom
  processed : Nat

/-- The body of `for row in rows` in `run_once`. -/
def passRow (acc : PassAcc) (row : AiRow) : PassAcc :=
  let pkt_id := row.packet_id
  let max_seen := if acc.max_seen < pkt_id then pkt_id else acc.max_seen
  let out := check_rules_for_row acc.w row
  { max_seen := max_seen
    w := out.2
    collected := acc.collected ++ out.1.map (fun ts => ⟨pkt_id, row.ts_ms, ts.1, ts.2⟩)
    processed := acc.processed + 1 }

/-- Initial fold state of a `run_once` pass: `max_seen = last_id`, the
windows warmed up iff all four are empty, nothing collected. -/
def passInit (st : AiState) (packets : List AiRow) : PassAcc :=
  ⟨st.last_id,
    if st.windows.v = [] ∧ st.windows.i = [] ∧ st.windows.p = [] ∧ st.windows.t = [] then
      warmup_rolls packets st.windows
    else st.windows,
    [], 0⟩

/-- The row loop of `run_once` over the newly selected packets. -/
def passResult (st : AiState) (packets : List AiRow) : PassAcc :=
  (selectNew packets st.last_id).foldl passRow (passInit st packets)

/-- `run_once` from `ai.py` over a fixed `packets` table: warm up empty
windows, evaluate every packet past the loaded high-water mark in
ascending id order, batch-insert the collected anomalies with
`INSERT OR IGNORE` (`insertOk = false` models a failed transaction that
rolls back), advance the persisted mark only if it increased, and append
every collected anomaly to the JSONL feed regardless. -/
def run_once (st : AiState) (packets : List AiRow) (insertOk : Bool) : AiState × RunInfo :=
  let acc := passResult st packets
  let anomalies' :=
    if acc.collected = [] then st.anomalies
    else if insertOk then acc.collected.foldl insertOrIgnore st.anomalies
    else st.anomalies
  let wrote : Bool := st.last_id < acc.max_seen
  let last_id' := if wrote then acc.max_seen else st.last_id
  (⟨last_id', anomalies', acc.w, st.feed ++ acc.collected⟩,
   ⟨acc.max_seen, wrote, acc.processed⟩)

/-! # Theorems -/

/-- C1: for every input of exactly `RECORD_SIZE` bytes handed to the packet
codec, integrity-ok holds iff the unsigned 32-bit little-endian integer in the
last 4 bytes equals the CRC32 checksum of the first `RECORD_SIZE - 4` bytes,
and framing-ok holds iff the first 4 bytes, read as an unsigned 32-bit
little-endian integer, equal the magic constant `0xABCD1234`. -/
theorem codec_integrity_and_framing (chunk : List Nat) (h : chunk.length = PACKET_SIZE) :
    (crc_ok_of chunk = true ↔
      le_bytes_val (chunk.drop (PACKET_SIZE - 4)) = compute_crc32 (chunk.take (PACKET_SIZE - 4)))
    ∧ (framing_ok_of chunk = true ↔ le_bytes_val (chunk.take 4) = 0xABCD1234) := by
  refine ⟨?_, ?_⟩
  · simp [crc_ok_of, recv_crc_of, payloadOf]
  · have h4 : (chunk.take (PACKET_SIZE - 4)).take 4 = chunk.take 4 := by
      simp [List.take_take, PACKET_SIZE, HEADER_SIZE]
    simp [framing_ok_of, unpack_header, fld, payloadOf, MAGIC_ID, h4]

def payloadC1 : List Nat := [0x34, 0x12, 0xCD, 0xAB] ++ List.replicate 27 0

def chunkC1 : List Nat := payloadC1 ++ le4 (compute_crc32 payloadC1)

/-- Witness for C1 at a concrete well-formed 35-byte record. -/
theorem codec_integrity_and_framing_witness :
    chunkC1.length = PACKET_SIZE
    ∧ ((crc_ok_of chunkC1 = true ↔
          le_bytes_val (chunkC1.drop (PACKET_SIZE - 4))
            = compute_crc32 (chunkC1.take (PACKET_SIZE - 4)))
        ∧ (framing_ok_of chunkC1 = true ↔ le_bytes_val (chunkC1.take 4) = 0xABCD1234)) :=
  ⟨by simp [chunkC1, payloadC1, le4, PACKET_SIZE, HEADER_SIZE],
   codec_integrity_and_framing chunkC1
     (by simp [chunkC1, payloadC1, le4, PACKET_SIZE, HEADER_SIZE])⟩

/-- C5: a framing-bad record increments only the framing-error counter,
persists nothing, advances the cursor by `PACKET_SIZE`, and its outcome does
not depend on its checksum bytes (the integrity evaluation is not reached);
a framing-ok, CRC-bad record increments only the integrity-error counter,
persists nothing, and advances the cursor by `PACKET_SIZE` — for every
insert-outcome environment, since neither branch reaches the insert. -/
theorem bad_records_counted_dropped_advanced (st : PState) (c : Nat) (chunk : List Nat)
    (insOk : Bool) :
    ((unpack_header (payloadOf chunk)).magic ≠ MAGIC_ID →
      processRecord st c chunk insOk =
        ({ st with metrics :=
            { st.metrics with framing_errors := st.metrics.framing_errors + 1 } },
          c + PACKET_SIZE)
      ∧ ∀ chunk2, payloadOf chunk2 = payloadOf chunk →
          processRecord st c chunk2 insOk = processRecord st c chunk insOk)
    ∧ ((unpack_header (payloadOf chunk)).magic = MAGIC_ID →
        recv_crc_of chunk ≠ compute_crc32 (payloadOf chunk) →
        processRecord st c chunk insOk =
          ({ st with metrics :=
              { st.metrics with crc_failures := st.metrics.crc_failures + 1 } },
            c + PACKET_SIZE)) := by
  refine ⟨fun hm => ⟨?_, ?_⟩, fun hm hcrc => ?_⟩
  · simp [processRecord, hm]
  · intro chunk2 hp
    simp [processRecord, hp, hm]
  · simp [processRecord, hm, hcrc]

/-- Witness for C5: a 35-byte all-zero record (magic 0) takes the framing
branch; a record with good magic and zeroed checksum bytes takes the CRC
branch. -/
theorem bad_records_counted_dropped_advanced_witness :
    (processRecord ⟨metrics0, none, []⟩ 0 (List.replicate 35 0) true =
        ({ metrics := ⟨0, 0, 1⟩, lastStored := none, db := [] }, 35)
      ∧ ∀ chunk2,
          payloadOf chunk2 = payloadOf (List.replicate 35 0) →
          processRecord ⟨metrics0, none, []⟩ 0 chunk2 true =
            processRecord ⟨metrics0, none, []⟩ 0 (List.replicate 35 0) true)
    ∧ processRecord ⟨metrics0, none, []⟩ 0 (payloadC1 ++ [0, 0, 0, 0]) true =
        ({ metrics := ⟨0, 1, 0⟩, lastStored := none, db := [] }, 35) := by
  have h1 :=
    bad_records_counted_dropped_advanced ⟨metrics0, none, []⟩ 0 (List.replicate 35 0) true
  have h2 :=
    bad_records_counted_dropped_advanced ⟨metrics0, none, []⟩ 0 (payloadC1 ++ [0, 0, 0, 0]) true
  refine ⟨h1.1 (by decide), ?_⟩
  have := h2.2 (by decide) (by decide)
  simpa [metrics0, PACKET_SIZE, HEADER_SIZE] using this

/-- The final cursor of the reader loop: the start position plus
`PACKET_SIZE` for every whole record available past it, for every
insert-outcome environment. -/
theorem parseLoop_cursor (stream : List Nat) (cursor : Nat) (st : PState)
    (insOks : Nat → Bool) :
    (parseLoop stream cursor st insOks).2 =
      cursor + PACKET_SIZE * ((stream.length - cursor) / PACKET_SIZE) := by
  rw [parseLoop]
  split
  · rename_i h
    simp only [processRecord_snd]
    rw [parseLoop_cursor stream (cursor + PACKET_SIZE)]
    simp only [PACKET_SIZE, HEADER_SIZE] at h ⊢
    omega
  · rename_i h
    simp only [PACKET_SIZE, HEADER_SIZE] at h ⊢
    omega
termination_by stream.length - cursor
decreasing_by
  simp only [PACKET_SIZE, HEADER_SIZE] at *
  omega

/-- C6: per invocation the reader consumes records one `RECORD_SIZE` chunk at
a time while `stream_length - cursor ≥ RECORD_SIZE`, leaves a shorter trailing
remainder unconsumed (an in-progress trailing record leaves the cursor value
unchanged), and a stored cursor beyond the stream length resets the effective
start to 0 and the pass still completes. -/
theorem reader_consumes_whole_records (s : List Nat) (offsetFile : Option String)
    (db0 : List Row) (insOks : Nat → Bool) (n : Nat)
    (hn : read_last_offset offsetFile = (n : Int)) :
    (parse_iteration_once (some s) offsetFile db0 insOks).finalCursor =
        (if s.length < n then 0 else n)
          + PACKET_SIZE * ((s.length - (if s.length < n then 0 else n)) / PACKET_SIZE)
    ∧ s.length - (parse_iteration_once (some s) offsetFile db0 insOks).finalCursor < PACKET_SIZE
    ∧ (s.length - n < PACKET_SIZE → n ≤ s.length →
        (parse_iteration_once (some s) offsetFile db0 insOks).finalCursor = n)
    ∧ (s.length < n →
        (parse_iteration_once (some s) offsetFile db0 insOks).finalCursor =
          PACKET_SIZE * (s.length / PACKET_SIZE)) := by
  have hstart :
      (parse_iteration_once (some s) offsetFile db0 insOks).finalCursor =
        (if s.length < n then 0 else n)
          + PACKET_SIZE * ((s.length - (if s.length < n then 0 else n)) / PACKET_SIZE) := by
    simp only [parse_iteration_once, hn, parseLoop_cursor]
    by_cases hc : s.length < n
    · rw [if_pos (by exact_mod_cast hc), if_pos hc]
    · rw [if_neg (by exact_mod_cast hc), if_neg hc, Int.toNat_natCast]
  refine ⟨hstart, ?_, ?_, ?_⟩
  · rw [hstart]
    by_cases hc : s.length < n
    · simp only [if_pos hc, PACKET_SIZE, HEADER_SIZE]
      omega
    · simp only [if_neg hc, PACKET_SIZE, HEADER_SIZE]
      omega
  · intro hsmall hle
    rw [hstart, if_neg (by omega)]
    simp only [PACKET_SIZE, HEADER_SIZE] at hsmall ⊢
    omega
  · intro hc
    rw [hstart]
    simp only [if_pos hc, PACKET_SIZE, HEADER_SIZE]
    omega

/-- Witness for C6: a 40-byte stream with no checkpoint file consumes one
record and leaves 5 trailing bytes. -/
theorem reader_consumes_whole_records_witness :
    (parse_iteration_once (some (List.replicate 40 0)) none [] (fun _ => true)).finalCursor =
        (if (List.replicate 40 (0 : Nat)).length < 0 then 0 else 0)
          + PACKET_SIZE
            * (((List.replicate 40 (0 : Nat)).length
                - (if (List.replicate 40 (0 : Nat)).length < 0 then 0 else 0)) / PACKET_SIZE)
    ∧ (List.replicate 40 (0 : Nat)).length
        - (parse_iteration_once (some (List.replicate 40 0)) none [] (fun _ => true)).finalCursor < PACKET_SIZE
    ∧ ((List.replicate 40 (0 : Nat)).length - 0 < PACKET_SIZE →
        0 ≤ (List.replicate 40 (0 : Nat)).length →
        (parse_iteration_once (some (List.replicate 40 0)) none [] (fun _ => true)).finalCursor = 0)
    ∧ ((List.replicate 40 (0 : Nat)).length < 0 →
        (parse_iteration_once (some (List.replicate 40 0)) none [] (fun _ => true)).finalCursor =
          PACKET_SIZE * ((List.replicate 40 (0 : Nat)).length / PACKET_SIZE)) :=
  reader_consumes_whole_records (List.replicate 40 0) none [] (fun _ => true) 0 (by decide)

/-- C7 counterexample: with a stored offset of 5 and an empty telemetry
stream the reader still calls `write_last_offset` — a persist without any
cursor advancement — and the persisted value drops from 5 to 0, so the
persisted cursor is neither written only-on-advance nor monotonically
non-decreasing. -/
theorem reader_persists_unconditionally_cex :
    read_last_offset (some "5") = 5
    ∧ (parse_iteration_once (some []) (some "5") [] (fun _ => true)).wrote = true
    ∧ (parse_iteration_once (some []) (some "5") [] (fun _ => true)).written = 0 := by
  refine ⟨by decide, ?_, ?_⟩ <;>
    simp [parse_iteration_once, parseLoop, read_last_offset, pystrip, pyInt, digitsVal,
      PACKET_SIZE, HEADER_SIZE]

/-- C7 amended: whenever the telemetry stream file exists the reader persists
its cursor at the end of the invocation whether or not it advanced, the
persisted value is the final cursor, and it is non-decreasing provided the
stored offset does not exceed the stream length (a truncation reset may lower
it); when the stream file is absent nothing is persisted. -/
theorem reader_persists_final_cursor (s : List Nat) (offsetFile : Option String)
    (db0 : List Row) (insOks : Nat → Bool) (n : Nat)
    (hn : read_last_offset offsetFile = (n : Int)) :
    (parse_iteration_once (some s) offsetFile db0 insOks).wrote = true
    ∧ (parse_iteration_once (some s) offsetFile db0 insOks).written =
        (parse_iteration_once (some s) offsetFile db0 insOks).finalCursor
    ∧ (n ≤ s.length → n ≤ (parse_iteration_once (some s) offsetFile db0 insOks).written)
    ∧ (parse_iteration_once none offsetFile db0 insOks).wrote = false := by
  refine ⟨?_, ?_, ?_, ?_⟩
  · simp [parse_iteration_once]
  · simp [parse_iteration_once]
  · intro hle
    have hw : (parse_iteration_once (some s) offsetFile db0 insOks).written =
        (if s.length < n then 0 else n)
          + PACKET_SIZE * ((s.length - (if s.length < n then 0 else n)) / PACKET_SIZE) := by
      simp only [parse_iteration_once, hn, parseLoop_cursor]
      by_cases hc : s.length < n
      · rw [if_pos (by exact_mod_cast hc), if_pos hc]
      · rw [if_neg (by exact_mod_cast hc), if_neg hc, Int.toNat_natCast]
    rw [hw, if_neg (by omega)]
    omega
  · simp [parse_iteration_once]

/-- Witness for C7 (amended) at an empty stream with no checkpoint file. -/
theorem reader_persists_final_cursor_witness :
    (parse_iteration_once (some []) none [] (fun _ => true)).wrote = true
    ∧ (parse_iteration_once (some []) none [] (fun _ => true)).written =
        (parse_iteration_once (some []) none [] (fun _ => true)).finalCursor
    ∧ (0 ≤ ([] : List Nat).length → 0 ≤ (parse_iteration_once (some []) none [] (fun _ => true)).written)
    ∧ (parse_iteration_once none none [] (fun _ => true)).wrote = false :=
  reader_persists_final_cursor [] none [] (fun _ => true) 0 (by decide)

/-- C8: loading a cursor never raises — an absent checkpoint file, or one
whose content cannot be read as an integer, yields the initial sentinel
(0 for the reader's byte offset, -1 for the anomaly engine's last id)
instead of an error. -/
theorem cursor_load_degrades_to_sentinel (fs : Option String)
    (h : fs = none ∨ ∃ s, fs = some s ∧ pyInt (pystrip s) = none) :
    read_last_offset fs = 0 ∧ read_last_id fs = -1 := by
  rcases h with h | ⟨s, rfl, hbad⟩
  · subst h
    exact ⟨rfl, rfl⟩
  · refine ⟨?_, by simp [read_last_id, hbad]⟩
    simp only [read_last_offset]
    split
    · rfl
    · simp [hbad]

/-- Witness for C8 on the unparsable checkpoint content `"garbage"`. -/
theorem cursor_load_degrades_to_sentinel_witness :
    read_last_offset (some "garbage") = 0 ∧ read_last_id (some "garbage") = -1 :=
  cursor_load_degrades_to_sentinel (some "garbage") (Or.inr ⟨"garbage", rfl, by decide⟩)

/-- C9 counterexample: `parser.py` lines 360-364 catch a failed
`insert_packet` and continue, still updating the in-memory `last_stored` to
the non-persisted packet (lines 365-371).  Processing record A with a
failing insert and then record B with a succeeding one therefore persists a
single row — there is no previous persisted packet — whose time delta is
`some 0` rather than `None`, computed against the never-persisted A. -/
theorem deltas_nonnull_without_persisted_predecessor_cex :
    (processRecord ⟨metrics0, none, []⟩ 0 chunkC1 false).1.db = []
    ∧ (processRecord (processRecord ⟨metrics0, none, []⟩ 0 chunkC1 false).1
        PACKET_SIZE chunkC1 true).1.db.length = 1
    ∧ (processRecord (processRecord ⟨metrics0, none, []⟩ 0 chunkC1 false).1
        PACKET_SIZE chunkC1 true).1.db.map Row.time_delta_ms = [some 0] := by
  refine ⟨by decide, by decide, by decide⟩

/-- C9 amended: every persisted packet's derived fields satisfy
`batt_v = battery_mv / 1000`, `temp_c = temp_centi / 100` and
`power = batt_v * batt_current_ma`; its voltage, temperature and time deltas
are taken against the in-memory `last_stored` summary — the previous
CRC-valid record accepted for persistence, which is the previous persisted
packet except when that record's own DB insert failed, in which case it was
never persisted — all three being `None` when no such previous record
exists.  The row reaches the table only when its insert succeeds, while
`last_stored` advances to this record either way. -/
theorem derived_fields_and_deltas_vs_last_accepted (st : PState) (c : Nat)
    (chunk : List Nat) (insOk : Bool) (pkt : RawPacket)
    (hpkt : pkt = unpack_header (payloadOf chunk))
    (hm : pkt.magic = MAGIC_ID)
    (hcrc : recv_crc_of chunk = compute_crc32 (payloadOf chunk)) :
    (processRecord st c chunk insOk).1.db =
        (if insOk then insert_packet st.db (buildRow st.lastStored pkt (recv_crc_of chunk))
         else st.db)
    ∧ (processRecord st c chunk insOk).1.lastStored =
        some ⟨pkt.packet_id, pkt.ts_ms, (pkt.battery_mv : ℚ) / 1000,
          (pkt.temp_centiC : ℚ) / 100⟩
    ∧ (buildRow st.lastStored pkt (recv_crc_of chunk)).batt_v = (pkt.battery_mv : ℚ) / 1000
    ∧ (buildRow st.lastStored pkt (recv_crc_of chunk)).temp_c = (pkt.temp_centiC : ℚ) / 100
    ∧ (buildRow st.lastStored pkt (recv_crc_of chunk)).power_mw =
        (pkt.battery_mv : ℚ) / 1000 * (pkt.I_batt_mA : ℚ)
    ∧ (st.lastStored = none →
        (buildRow st.lastStored pkt (recv_crc_of chunk)).delta_batt_v = none
        ∧ (buildRow st.lastStored pkt (recv_crc_of chunk)).delta_temp_c = none
        ∧ (buildRow st.lastStored pkt (recv_crc_of chunk)).time_delta_ms = none)
    ∧ (∀ prev, st.lastStored = some prev →
        (buildRow st.lastStored pkt (recv_crc_of chunk)).delta_batt_v =
            some ((pkt.battery_mv : ℚ) / 1000 - prev.batt_v)
        ∧ (buildRow st.lastStored pkt (recv_crc_of chunk)).delta_temp_c =
            some ((pkt.temp_centiC : ℚ) / 100 - prev.temp_c)
        ∧ (buildRow st.lastStored pkt (recv_crc_of chunk)).time_delta_ms =
            some ((pkt.ts_ms : Int) - (prev.ts_ms : Int))) := by
  refine ⟨?_, ?_, by simp [buildRow], by simp [buildRow], by simp [buildRow], ?_, ?_⟩
  · simp [processRecord, ← hpkt, hm, hcrc, buildRow]
  · simp [processRecord, ← hpkt, hm, hcrc, buildRow]
  · intro hnone
    simp [buildRow, hnone]
  · intro prev hprev
    simp [buildRow, hprev]

/-- Witness for C9 (amended) on the concrete valid record `chunkC1`
processed after a previous accepted packet, with a failing insert. -/
theorem derived_fields_and_deltas_vs_last_accepted_witness :
    (processRecord ⟨metrics0, some ⟨0, 5, 7, 2⟩, []⟩ 0 chunkC1 false).1.db =
        (if false then
          insert_packet []
            (buildRow (some ⟨0, 5, 7, 2⟩) (unpack_header (payloadOf chunkC1))
              (recv_crc_of chunkC1))
         else [])
    ∧ (processRecord ⟨metrics0, some ⟨0, 5, 7, 2⟩, []⟩ 0 chunkC1 false).1.lastStored =
        some ⟨(unpack_header (payloadOf chunkC1)).packet_id,
          (unpack_header (payloadOf chunkC1)).ts_ms,
          ((unpack_header (payloadOf chunkC1)).battery_mv : ℚ) / 1000,
          ((unpack_header (payloadOf chunkC1)).temp_centiC : ℚ) / 100⟩
    ∧ (buildRow (some ⟨0, 5, 7, 2⟩) (unpack_header (payloadOf chunkC1))
          (recv_crc_of chunkC1)).batt_v =
        ((unpack_header (payloadOf chunkC1)).battery_mv : ℚ) / 1000
    ∧ (buildRow (some ⟨0, 5, 7, 2⟩) (unpack_header (payloadOf chunkC1))
          (recv_crc_of chunkC1)).temp_c =
        ((unpack_header (payloadOf chunkC1)).temp_centiC : ℚ) / 100
    ∧ (buildRow (some ⟨0, 5, 7, 2⟩) (unpack_header (payloadOf chunkC1))
          (recv_crc_of chunkC1)).power_mw =
        ((unpack_header (payloadOf chunkC1)).battery_mv : ℚ) / 1000
          * ((unpack_header (payloadOf chunkC1)).I_batt_mA : ℚ)
    ∧ ((some ⟨0, 5, 7, 2⟩ : Option LastStored) = none →
        (buildRow (some ⟨0, 5, 7, 2⟩) (unpack_header (payloadOf chunkC1))
            (recv_crc_of chunkC1)).delta_batt_v = none
        ∧ (buildRow (some ⟨0, 5, 7, 2⟩) (unpack_header (payloadOf chunkC1))
            (recv_crc_of chunkC1)).delta_temp_c = none
        ∧ (buildRow (some ⟨0, 5, 7, 2⟩) (unpack_header (payloadOf chunkC1))
            (recv_crc_of chunkC1)).time_delta_ms = none)
    ∧ (∀ prev, (some ⟨0, 5, 7, 2⟩ : Option LastStored) = some prev →
        (buildRow (some ⟨0, 5, 7, 2⟩) (unpack_header (payloadOf chunkC1))
            (recv_crc_of chunkC1)).delta_batt_v =
          some (((unpack_header (payloadOf chunkC1)).battery_mv : ℚ) / 1000 - prev.batt_v)
        ∧ (buildRow (some ⟨0, 5, 7, 2⟩) (unpack_header (payloadOf chunkC1))
            (recv_crc_of chunkC1)).delta_temp_c =
          some (((unpack_header (payloadOf chunkC1)).temp_centiC : ℚ) / 100 - prev.temp_c)
        ∧ (buildRow (some ⟨0, 5, 7, 2⟩) (unpack_header (payloadOf chunkC1))
            (recv_crc_of chunkC1)).time_delta_ms =
          some (((unpack_header (payloadOf chunkC1)).ts_ms : Int) - (prev.ts_ms : Int))) :=
  derived_fields_and_deltas_vs_last_accepted ⟨metrics0, some ⟨0, 5, 7, 2⟩, []⟩ 0 chunkC1
    false (unpack_header (payloadOf chunkC1)) rfl (by decide) (by decide)

/-! ## Statistical-rule lemmas: the squared rational comparison decides the
source's `mean ± SIGMA * √pvariance` comparison over `ℝ`. -/

/-- When the population variance is positive, `sigmaSpike` holds exactly when
the value strictly exceeds `mean + SIGMA * √pvariance`. -/
theorem sigmaSpike_iff (w : List Int) (x : Int) (hvar : 0 < pvarQ w) :
    sigmaSpike w x = true ↔ exceedsSigma w x := by
  have hVR : (0 : ℝ) < ((pvarQ w : ℚ) : ℝ) := by exact_mod_cast hvar
  have hs : Real.sqrt ((pvarQ w : ℚ) : ℝ) ^ 2 = ((pvarQ w : ℚ) : ℝ) := Real.sq_sqrt hVR.le
  have hspos : 0 < Real.sqrt ((pvarQ w : ℚ) : ℝ) := Real.sqrt_pos.mpr hVR
  rw [sigmaSpike, decide_eq_true_eq]
  unfold exceedsSigma
  have hS : ((SIGMA : ℚ) : ℝ) = 3 := by norm_num [SIGMA]
  rw [hS]
  constructor
  · rintro ⟨-, hmx, hsq⟩
    have hmxR : ((meanQ w : ℚ) : ℝ) < ((x : ℤ) : ℝ) := by exact_mod_cast hmx
    have hsqR : (9 : ℝ) * ((pvarQ w : ℚ) : ℝ)
        < (((x : ℤ) : ℝ) - ((meanQ w : ℚ) : ℝ)) ^ 2 := by
      have : ((SIGMA ^ 2 * pvarQ w : ℚ) : ℝ) < ((((x : ℚ) - meanQ w) ^ 2 : ℚ) : ℝ) := by
        exact_mod_cast hsq
      push_cast [SIGMA] at this
      nlinarith [this]
    nlinarith [hspos, hs, hmxR, hsqR]
  · intro hgt
    have hmxR : ((meanQ w : ℚ) : ℝ) < ((x : ℤ) : ℝ) := by nlinarith [hspos, hgt]
    have hsqR : (9 : ℝ) * ((pvarQ w : ℚ) : ℝ)
        < (((x : ℤ) : ℝ) - ((meanQ w : ℚ) : ℝ)) ^ 2 := by
      nlinarith [hspos, hs, hgt]
    refine ⟨hvar, by exact_mod_cast hmxR, ?_⟩
    have : ((SIGMA ^ 2 * pvarQ w : ℚ) : ℝ) < ((((x : ℚ) - meanQ w) ^ 2 : ℚ) : ℝ) := by
      push_cast [SIGMA]
      push_cast at hsqR
      nlinarith [hsqR]
    exact_mod_cast this

/-- When the population variance is positive, `sigmaDrop` holds exactly when
the value is strictly below `mean - SIGMA * √pvariance`. -/
theorem sigmaDrop_iff (w : List Int) (x : Int) (hvar : 0 < pvarQ w) :
    sigmaDrop w x = true ↔ dropsBelowSigma w x := by
  have hVR : (0 : ℝ) < ((pvarQ w : ℚ) : ℝ) := by exact_mod_cast hvar
  have hs : Real.sqrt ((pvarQ w : ℚ) : ℝ) ^ 2 = ((pvarQ w : ℚ) : ℝ) := Real.sq_sqrt hVR.le
  have hspos : 0 < Real.sqrt ((pvarQ w : ℚ) : ℝ) := Real.sqrt_pos.mpr hVR
  rw [sigmaDrop, decide_eq_true_eq]
  unfold dropsBelowSigma
  have hS : ((SIGMA : ℚ) : ℝ) = 3 := by norm_num [SIGMA]
  rw [hS]
  constructor
  · rintro ⟨-, hmx, hsq⟩
    have hmxR : ((x : ℤ) : ℝ) < ((meanQ w : ℚ) : ℝ) := by exact_mod_cast hmx
    have hsqR : (9 : ℝ) * ((pvarQ w : ℚ) : ℝ)
        < (((meanQ w : ℚ) : ℝ) - ((x : ℤ) : ℝ)) ^ 2 := by
      have : ((SIGMA ^ 2 * pvarQ w : ℚ) : ℝ) < (((meanQ w - (x : ℚ)) ^ 2 : ℚ) : ℝ) := by
        exact_mod_cast hsq
      push_cast [SIGMA] at this
      nlinarith [this]
    nlinarith [hspos, hs, hmxR, hsqR]
  · intro hlt
    have hmxR : ((x : ℤ) : ℝ) < ((meanQ w : ℚ) : ℝ) := by nlinarith [hspos, hlt]
    have hsqR : (9 : ℝ) * ((pvarQ w : ℚ) : ℝ)
        < (((meanQ w : ℚ) : ℝ) - ((x : ℤ) : ℝ)) ^ 2 := by
      nlinarith [hspos, hs, hlt]
    refine ⟨hvar, by exact_mod_cast hmxR, ?_⟩
    have : ((SIGMA ^ 2 * pvarQ w : ℚ) : ℝ) < (((meanQ w - (x : ℚ)) ^ 2 : ℚ) : ℝ) := by
      push_cast [SIGMA]
      push_cast at hsqR
      nlinarith [hsqR]
    exact_mod_cast this

/-- Membership in a conditional singleton. -/
theorem mem_ite_singleton {α : Type} (c : Prop) [Decidable c] (a b : α) :
    (a ∈ (if c then [b] else [])) ↔ (c ∧ a = b) := by
  split <;> simp_all

/-- Every voltage tag is `("VOLTAGE_DROP", "major")`. -/
theorem eq_of_mem_voltTags (w : Windows) (row : AiRow) (p : String × String)
    (hp : p ∈ voltTags w row) : p = ("VOLTAGE_DROP", "major") := by
  unfold voltTags at hp
  rcases h : toIntOpt row.battery_mv with - | x <;> rw [h] at hp
  · simp at hp
  · rw [mem_ite_singleton] at hp
    exact hp.2

/-- Every current tag is `("CURRENT_SPIKE", "major")`. -/
theorem eq_of_mem_currTags (w : Windows) (row : AiRow) (p : String × String)
    (hp : p ∈ currTags w row) : p = ("CURRENT_SPIKE", "major") := by
  unfold currTags at hp
  rcases h : toIntOpt row.batt_current_ma with - | x <;> rw [h] at hp
  · simp at hp
  · rw [mem_ite_singleton] at hp
    exact hp.2

/-- Every power tag is `("POWER_SPIKE", "major")`. -/
theorem eq_of_mem_powerTags (w : Windows) (row : AiRow) (p : String × String)
    (hp : p ∈ powerTags w row) : p = ("POWER_SPIKE", "major") := by
  unfold powerTags at hp
  rcases h : toIntOpt row.power_mw with - | x <;> rw [h] at hp
  · simp at hp
  · rw [mem_ite_singleton] at hp
    exact hp.2

/-- Every temperature tag is one of the three temperature rules' pairs. -/
theorem eq_of_mem_tempTags (w : Windows) (row : AiRow) (p : String × String)
    (hp : p ∈ tempTags w row) :
    p = ("TEMP_HIGH", "critical") ∨ p = ("TEMP_LOW", "critical")
      ∨ p = ("TEMP_RISE", "major") := by
  unfold tempTags at hp
  rcases h : toIntOpt row.temp_centi with - | x <;> rw [h] at hp
  · simp at hp
  · simp only [List.mem_append, mem_ite_singleton] at hp
    rcases hp with (h1 | h1) | h1
    · exact Or.inl h1.2
    · exact Or.inr (Or.inl h1.2)
    · exact Or.inr (Or.inr h1.2)

/-- The voltage-drop tag fires iff its own channel condition holds. -/
theorem volt_fires_iff (w : Windows) (row : AiRow) (x : Int)
    (hv : toIntOpt row.battery_mv = some x) :
    (("VOLTAGE_DROP", "major") ∈ (check_rules_for_row w row).1) ↔
      (2 ≤ (push w.v x).length ∧ sigmaDrop (push w.v x) x = true) := by
  simp only [check_rules_for_row, List.mem_append]
  constructor
  · rintro (((h | h) | h) | h)
    · unfold voltTags at h
      rw [hv, mem_ite_singleton] at h
      exact h.1
    · exact absurd (eq_of_mem_currTags w row _ h) (by decide)
    · exact absurd (eq_of_mem_powerTags w row _ h) (by decide)
    · rcases eq_of_mem_tempTags w row _ h with h1 | h1 | h1 <;> exact absurd h1 (by decide)
  · intro hc
    refine Or.inl (Or.inl (Or.inl ?_))
    unfold voltTags
    rw [hv, mem_ite_singleton]
    exact ⟨hc, rfl⟩

/-- The current-spike tag fires iff its own channel condition holds. -/
theorem curr_fires_iff (w : Windows) (row : AiRow) (x : Int)
    (hv : toIntOpt row.batt_current_ma = some x) :
    (("CURRENT_SPIKE", "major") ∈ (check_rules_for_row w row).1) ↔
      (2 ≤ (push w.i x).length ∧ sigmaSpike (push w.i x) x = true) := by
  simp only [check_rules_for_row, List.mem_append]
  constructor
  · rintro (((h | h) | h) | h)
    · exact absurd (eq_of_mem_voltTags w row _ h) (by decide)
    · unfold currTags at h
      rw [hv, mem_ite_singleton] at h
      exact h.1
    · exact absurd (eq_of_mem_powerTags w row _ h) (by decide)
    · rcases eq_of_mem_tempTags w row _ h with h1 | h1 | h1 <;> exact absurd h1 (by decide)
  · intro hc
    refine Or.inl (Or.inl (Or.inr ?_))
    unfold currTags
    rw [hv, mem_ite_singleton]
    exact ⟨hc, rfl⟩

/-- The power-spike tag fires iff its own channel condition holds. -/
theorem power_fires_iff (w : Windows) (row : AiRow) (x : Int)
    (hv : toIntOpt row.power_mw = some x) :
    (("POWER_SPIKE", "major") ∈ (check_rules_for_row w row).1) ↔
      (2 ≤ (push w.p x).length ∧ sigmaSpike (push w.p x) x = true) := by
  simp only [check_rules_for_row, List.mem_append]
  constructor
  · rintro (((h | h) | h) | h)
    · exact absurd (eq_of_mem_voltTags w row _ h) (by decide)
    · exact absurd (eq_of_mem_currTags w row _ h) (by decide)
    · unfold powerTags at h
      rw [hv, mem_ite_singleton] at h
      exact h.1
    · rcases eq_of_mem_tempTags w row _ h with h1 | h1 | h1 <;> exact absurd h1 (by decide)
  · intro hc
    refine Or.inl (Or.inr ?_)
    unfold powerTags
    rw [hv, mem_ite_singleton]
    exact ⟨hc, rfl⟩

/-- The temperature-rise tag fires iff its own channel condition holds. -/
theorem tempRise_fires_iff (w : Windows) (row : AiRow) (x : Int)
    (hv : toIntOpt row.temp_centi = some x) :
    (("TEMP_RISE", "major") ∈ (check_rules_for_row w row).1) ↔
      (2 ≤ (push w.t x).length ∧ sigmaSpike (push w.t x) x = true) := by
  simp only [check_rules_for_row, List.mem_append]
  constructor
  · rintro (((h | h) | h) | h)
    · exact absurd (eq_of_mem_voltTags w row _ h) (by decide)
    · exact absurd (eq_of_mem_currTags w row _ h) (by decide)
    · exact absurd (eq_of_mem_powerTags w row _ h) (by decide)
    · unfold tempTags at h
      rw [hv] at h
      simp only [List.mem_append, mem_ite_singleton] at h
      rcases h with (h1 | h1) | h1
      · exact absurd h1.2 (by decide)
      · exact absurd h1.2 (by decide)
      · exact h1.1
  · intro hc
    refine Or.inr ?_
    unfold tempTags
    rw [hv]
    simp only [List.mem_append, mem_ite_singleton]
    exact Or.inr ⟨hc, trivial⟩

/-- C2: for every channel whose rolling window, after the current sample is
pushed, holds at least 2 samples with positive population standard deviation,
the major statistical rule fires exactly when the value is strictly below
`mean - 3·stddev` (voltage drop) or strictly above `mean + 3·stddev`
(current/power spike, temperature rise), where mean and stddev are those of
the post-push window; a sample exactly at `mean + 3·stddev` does not fire. -/
theorem statistical_rules_strict_post_push (w : Windows) (row : AiRow) :
    (∀ x, toIntOpt row.battery_mv = some x →
      2 ≤ (push w.v x).length → 0 < pvarQ (push w.v x) →
      ((("VOLTAGE_DROP", "major") ∈ (check_rules_for_row w row).1 ↔
          dropsBelowSigma (push w.v x) x)))
    ∧ (∀ x, toIntOpt row.batt_current_ma = some x →
      2 ≤ (push w.i x).length → 0 < pvarQ (push w.i x) →
      ((("CURRENT_SPIKE", "major") ∈ (check_rules_for_row w row).1 ↔
          exceedsSigma (push w.i x) x)
        ∧ ((x : ℝ) = (meanQ (push w.i x) : ℝ)
              + (SIGMA : ℝ) * Real.sqrt ((pvarQ (push w.i x) : ℝ)) →
            ("CURRENT_SPIKE", "major") ∉ (check_rules_for_row w row).1)))
    ∧ (∀ x, toIntOpt row.power_mw = some x →
      2 ≤ (push w.p x).length → 0 < pvarQ (push w.p x) →
      ((("POWER_SPIKE", "major") ∈ (check_rules_for_row w row).1 ↔
          exceedsSigma (push w.p x) x)
        ∧ ((x : ℝ) = (meanQ (push w.p x) : ℝ)
              + (SIGMA : ℝ) * Real.sqrt ((pvarQ (push w.p x) : ℝ)) →
            ("POWER_SPIKE", "major") ∉ (check_rules_for_row w row).1)))
    ∧ (∀ x, toIntOpt row.temp_centi = some x →
      2 ≤ (push w.t x).length → 0 < pvarQ (push w.t x) →
      ((("TEMP_RISE", "major") ∈ (check_rules_for_row w row).1 ↔
          exceedsSigma (push w.t x) x)
        ∧ ((x : ℝ) = (meanQ (push w.t x) : ℝ)
              + (SIGMA : ℝ) * Real.sqrt ((pvarQ (push w.t x) : ℝ)) →
            ("TEMP_RISE", "major") ∉ (check_rules_for_row w row).1))) := by
  refine ⟨?_, ?_, ?_, ?_⟩
  · intro x hv hlen hvar
    rw [volt_fires_iff w row x hv]
    constructor
    · rintro ⟨-, h⟩
      exact (sigmaDrop_iff _ _ hvar).1 h
    · intro h
      exact ⟨hlen, (sigmaDrop_iff _ _ hvar).2 h⟩
  · intro x hv hlen hvar
    have hiff : (("CURRENT_SPIKE", "major") ∈ (check_rules_for_row w row).1) ↔
        exceedsSigma (push w.i x) x := by
      rw [curr_fires_iff w row x hv]
      constructor
      · rintro ⟨-, h⟩
        exact (sigmaSpike_iff _ _ hvar).1 h
      · intro h
        exact ⟨hlen, (sigmaSpike_iff _ _ hvar).2 h⟩
    refine ⟨hiff, fun heq hmem => ?_⟩
    have := hiff.1 hmem
    rw [exceedsSigma, ← heq] at this
    exact lt_irrefl _ this
  · intro x hv hlen hvar
    have hiff : (("POWER_SPIKE", "major") ∈ (check_rules_for_row w row).1) ↔
        exceedsSigma (push w.p x) x := by
      rw [power_fires_iff w row x hv]
      constructor
      · rintro ⟨-, h⟩
        exact (sigmaSpike_iff _ _ hvar).1 h
      · intro h
        exact ⟨hlen, (sigmaSpike_iff _ _ hvar).2 h⟩
    refine ⟨hiff, fun heq hmem => ?_⟩
    have := hiff.1 hmem
    rw [exceedsSigma, ← heq] at this
    exact lt_irrefl _ this
  · intro x hv hlen hvar
    have hiff : (("TEMP_RISE", "major") ∈ (check_rules_for_row w row).1) ↔
        exceedsSigma (push w.t x) x := by
      rw [tempRise_fires_iff w row x hv]
      constructor
      · rintro ⟨-, h⟩
        exact (sigmaSpike_iff _ _ hvar).1 h
      · intro h
        exact ⟨hlen, (sigmaSpike_iff _ _ hvar).2 h⟩
    refine ⟨hiff, fun heq hmem => ?_⟩
    have := hiff.1 hmem
    rw [exceedsSigma, ← heq] at this
    exact lt_irrefl _ this

def wC2 : Windows :=
  ⟨List.replicate 16 100, List.replicate 16 0, List.replicate 16 0, List.replicate 9 0⟩

def rowC2 : AiRow := ⟨1, 0, .intV 83, .intV 17, .intV 17, .intV 10⟩

/-- Witness for C2: with sixteen 100 mV samples a value of 83 crosses below
`mean - 3σ` (99 - 12); with sixteen 0 mA samples a value of 17 crosses above
`mean + 3σ` (1 + 12); the power channel behaves likewise; and with nine 0
samples a temperature of 10 sits exactly at `mean + 3σ` (1 + 9) and does not
fire. -/
theorem statistical_rules_strict_post_push_witness :
    dropsBelowSigma (push wC2.v 83) 83
    ∧ exceedsSigma (push wC2.i 17) 17
    ∧ exceedsSigma (push wC2.p 17) 17
    ∧ ¬ exceedsSigma (push wC2.t 10) 10 := by
  have h := statistical_rules_strict_post_push wC2 rowC2
  have hv : toIntOpt rowC2.battery_mv = some 83 := rfl
  have hi : toIntOpt rowC2.batt_current_ma = some 17 := rfl
  have hp : toIntOpt rowC2.power_mw = some 17 := rfl
  have ht : toIntOpt rowC2.temp_centi = some 10 := rfl
  have hlv : 2 ≤ (push wC2.v 83).length := by
    norm_num [push, wC2, ROLLING_WINDOW]
  have hli : 2 ≤ (push wC2.i 17).length := by
    norm_num [push, wC2, ROLLING_WINDOW]
  have hlp : 2 ≤ (push wC2.p 17).length := by
    norm_num [push, wC2, ROLLING_WINDOW]
  have hlt : 2 ≤ (push wC2.t 10).length := by
    norm_num [push, wC2, ROLLING_WINDOW]
  have hvarv : 0 < pvarQ (push wC2.v 83) := by
    norm_num [pvarQ, meanQ, push, wC2, ROLLING_WINDOW, List.replicate]
  have hvari : 0 < pvarQ (push wC2.i 17) := by
    norm_num [pvarQ, meanQ, push, wC2, ROLLING_WINDOW, List.replicate]
  have hvarp : 0 < pvarQ (push wC2.p 17) := by
    norm_num [pvarQ, meanQ, push, wC2, ROLLING_WINDOW, List.replicate]
  have hvart : 0 < pvarQ (push wC2.t 10) := by
    norm_num [pvarQ, meanQ, push, wC2, ROLLING_WINDOW, List.replicate]
  have hsdv : sigmaDrop (push wC2.v 83) 83 = true := by
    norm_num [sigmaDrop, pvarQ, meanQ, push, wC2, ROLLING_WINDOW, List.replicate, SIGMA]
  have hssi : sigmaSpike (push wC2.i 17) 17 = true := by
    norm_num [sigmaSpike, pvarQ, meanQ, push, wC2, ROLLING_WINDOW, List.replicate, SIGMA]
  have hssp : sigmaSpike (push wC2.p 17) 17 = true := by
    norm_num [sigmaSpike, pvarQ, meanQ, push, wC2, ROLLING_WINDOW, List.replicate, SIGMA]
  have hsst : sigmaSpike (push wC2.t 10) 10 = false := by
    norm_num [sigmaSpike, pvarQ, meanQ, push, wC2, ROLLING_WINDOW, List.replicate, SIGMA]
  refine ⟨?_, ?_, ?_, ?_⟩
  · exact (h.1 83 hv hlv hvarv).1 ((volt_fires_iff wC2 rowC2 83 hv).2 ⟨hlv, hsdv⟩)
  · exact ((h.2.1 17 hi hli hvari).1).1 ((curr_fires_iff wC2 rowC2 17 hi).2 ⟨hli, hssi⟩)
  · exact ((h.2.2.1 17 hp hlp hvarp).1).1 ((power_fires_iff wC2 rowC2 17 hp).2 ⟨hlp, hssp⟩)
  · intro hex
    have hmem := ((h.2.2.2 10 ht hlt hvart).1).2 hex
    have hc := (tempRise_fires_iff wC2 rowC2 10 ht).1 hmem
    rw [hsst] at hc
    exact Bool.false_ne_true hc.2

/-- `ratTrunc` truncates toward zero: floor for non-negative rationals,
ceiling for negative ones — the behaviour of Python `int()` on a float. -/
theorem ratTrunc_toward_zero (q : ℚ) :
    (0 ≤ q → ratTrunc q = ⌊q⌋) ∧ (q < 0 → ratTrunc q = ⌈q⌉) := by
  constructor
  · intro hq
    rw [ratTrunc, Rat.floor_def,
      Int.tdiv_eq_ediv (Rat.num_nonneg.mpr hq) (Int.natCast_nonneg q.den)]
  · intro hq
    have hnum : q.num < 0 := Rat.num_neg.mpr hq
    have h1 : ratTrunc q = -((-q.num).tdiv (q.den : ℤ)) := by
      rw [ratTrunc, ← Int.neg_tdiv, neg_neg]
    have h2 : (⌈q⌉ : ℤ) = -((-q.num) / (q.den : ℤ)) := by
      rw [show (⌈q⌉ : ℤ) = -⌊-q⌋ from rfl, Rat.floor_def, Rat.neg_num,
        show (-q).den = q.den from rfl]
    rw [h1, h2, Int.tdiv_eq_ediv (by omega) (Int.natCast_nonneg q.den)]

/-- C10: the value pushed into the power rolling window by
`check_rules_for_row` is `int(power_mw)` — the stored power truncated toward
zero (floor when non-negative, ceiling when negative) — and the POWER_SPIKE
rule's statistics and threshold comparison run over the truncated integer
window; a row whose power value cannot be converted to an integer is silently
skipped for that channel: the window is unchanged and no POWER_SPIKE tag is
produced. -/
theorem power_window_truncated (w : Windows) (row : AiRow) :
    (∀ q, row.power_mw = SqlVal.realV q →
      (check_rules_for_row w row).2.p = push w.p (ratTrunc q)
      ∧ ((0 ≤ q → ratTrunc q = ⌊q⌋) ∧ (q < 0 → ratTrunc q = ⌈q⌉))
      ∧ ((("POWER_SPIKE", "major") ∈ (check_rules_for_row w row).1 ↔
          2 ≤ (push w.p (ratTrunc q)).length
            ∧ sigmaSpike (push w.p (ratTrunc q)) (ratTrunc q) = true)))
    ∧ (toIntOpt row.power_mw = none →
        (check_rules_for_row w row).2.p = w.p
        ∧ ("POWER_SPIKE", "major") ∉ (check_rules_for_row w row).1) := by
  constructor
  · intro q hq
    have hv : toIntOpt row.power_mw = some (ratTrunc q) := by rw [hq]; rfl
    refine ⟨?_, ratTrunc_toward_zero q, power_fires_iff w row (ratTrunc q) hv⟩
    simp [check_rules_for_row, rollP, hv]
  · intro hnone
    constructor
    · simp [check_rules_for_row, rollP, hnone]
    · intro hmem
      simp only [check_rules_for_row, List.mem_append] at hmem
      rcases hmem with (((h | h) | h) | h)
      · exact absurd (eq_of_mem_voltTags w row _ h) (by decide)
      · exact absurd (eq_of_mem_currTags w row _ h) (by decide)
      · unfold powerTags at h
        rw [hnone] at h
        simp at h
      · rcases eq_of_mem_tempTags w row _ h with h1 | h1 | h1 <;> exact absurd h1 (by decide)

def wC10 : Windows := ⟨[], [], List.replicate 16 0, []⟩

def rowC10 : AiRow := ⟨2, 0, .null, .null, .realV (-3157 / 2), .null⟩

def rowC10b : AiRow := ⟨3, 0, .null, .null, .textV "n/a", .null⟩

/-- Witness for C10: a stored power of `-1578.5` is pushed as the
toward-zero truncation `int(-1578.5)`, and a non-numeric power value leaves
the window untouched and produces no POWER_SPIKE tag. -/
theorem power_window_truncated_witness :
    ((check_rules_for_row wC10 rowC10).2.p = push wC10.p (ratTrunc (-3157 / 2))
      ∧ ((-3157 / 2 : ℚ) < 0 → ratTrunc (-3157 / 2 : ℚ) = ⌈(-3157 / 2 : ℚ)⌉))
    ∧ ((check_rules_for_row wC10 rowC10b).2.p = wC10.p
        ∧ ("POWER_SPIKE", "major") ∉ (check_rules_for_row wC10 rowC10b).1) := by
  have h1 := (power_window_truncated wC10 rowC10).1 (-3157 / 2) rfl
  have h2 := (power_window_truncated wC10 rowC10b).2 (by decide)
  exact ⟨⟨h1.1, h1.2.1.2⟩, h2⟩

/-! ## Lemmas for the anomaly engine's dedup and high-water mark -/

/-- The dedup invariant: at most one row per `(packet_id, tag)` pair. -/
def anomKeysUnique (tbl : List Anom) : Prop :=
  List.Pairwise (fun a b => ¬(a.packet_id = b.packet_id ∧ a.tag = b.tag)) tbl

/-- `INSERT OR IGNORE` preserves the dedup invariant. -/
theorem anomKeysUnique_insertOrIgnore (tbl : List Anom) (a : Anom)
    (h : anomKeysUnique tbl) : anomKeysUnique (insertOrIgnore tbl a) := by
  unfold insertOrIgnore
  split
  · exact h
  · rename_i hany
    rw [anomKeysUnique, List.pairwise_append]
    refine ⟨h, List.pairwise_singleton _ _, ?_⟩
    intro b hb c hc
    rw [List.mem_singleton] at hc
    subst hc
    rintro ⟨h1, h2⟩
    exact hany (List.any_eq_true.mpr ⟨b, hb, by simp [h1, h2]⟩)

/-- A batch of `INSERT OR IGNORE`s preserves the dedup invariant. -/
theorem anomKeysUnique_foldl (l : List Anom) :
    ∀ tbl, anomKeysUnique tbl → anomKeysUnique (l.foldl insertOrIgnore tbl) := by
  induction l with
  | nil => exact fun tbl h => h
  | cons a l ih => exact fun tbl h => ih _ (anomKeysUnique_insertOrIgnore tbl a h)

theorem mem_insertSorted (r : AiRow) (l : List AiRow) (a : AiRow) :
    a ∈ insertSorted r l ↔ a = r ∨ a ∈ l := by
  induction l with
  | nil => simp [insertSorted]
  | cons x xs ih =>
      unfold insertSorted
      split
      · simp [List.mem_cons]
      · simp only [List.mem_cons, ih]
        tauto

theorem mem_sortById (l : List AiRow) (a : AiRow) : a ∈ sortById l ↔ a ∈ l := by
  induction l with
  | nil => simp [sortById]
  | cons x xs ih =>
      show a ∈ insertSorted x (sortById xs) ↔ a ∈ x :: xs
      rw [mem_insertSorted, ih, List.mem_cons]

/-- A row is selected by `run_once` iff it is in the table with an id past
the high-water mark. -/
theorem mem_selectNew (packets : List AiRow) (last_id : Int) (r : AiRow) :
    r ∈ selectNew packets last_id ↔ r ∈ packets ∧ last_id < r.packet_id := by
  unfold selectNew
  rw [mem_sortById, List.mem_filter]
  simp

/-- Each loop step only raises `max_seen`. -/
theorem passRow_max_le (acc : PassAcc) (r : AiRow) :
    acc.max_seen ≤ (passRow acc r).max_seen := by
  unfold passRow
  dsimp only
  split <;> omega

/-- Each loop step raises `max_seen` to at least the examined row's id. -/
theorem passRow_max_ge (acc : PassAcc) (r : AiRow) :
    r.packet_id ≤ (passRow acc r).max_seen := by
  unfold passRow
  dsimp only
  split <;> omega

/-- The loop never lowers `max_seen`. -/
theorem fold_passRow_max_mono (rows : List AiRow) :
    ∀ acc : PassAcc, acc.max_seen ≤ (rows.foldl passRow acc).max_seen := by
  induction rows with
  | nil => exact fun acc => le_refl _
  | cons x xs ih =>
      intro acc
      exact le_trans (passRow_max_le acc x) (ih (passRow acc x))

/-- Every examined row's id is bounded by the final `max_seen`. -/
theorem fold_passRow_max_ge (rows : List AiRow) :
    ∀ (acc : PassAcc) (r : AiRow), r ∈ rows →
      r.packet_id ≤ (rows.foldl passRow acc).max_seen := by
  induction rows with
  | nil => intro acc r hr; simp at hr
  | cons x xs ih =>
      intro acc r hr
      rcases List.mem_cons.mp hr with rfl | hr
      · exact le_trans (passRow_max_ge acc r) (fold_passRow_max_mono xs (passRow acc r))
      · exact ih (passRow acc x) r hr

/-- The final `max_seen` is the initial one or some examined row's id. -/
theorem fold_passRow_max_mem (rows : List AiRow) :
    ∀ acc : PassAcc, (rows.foldl passRow acc).max_seen = acc.max_seen ∨
      ∃ r ∈ rows, (rows.foldl passRow acc).max_seen = r.packet_id := by
  induction rows with
  | nil => exact fun acc => Or.inl rfl
  | cons x xs ih =>
      intro acc
      rcases ih (passRow acc x) with h | ⟨r, hr, h⟩
      · rw [List.foldl_cons, h]
        unfold passRow
        dsimp only
        split
        · exact Or.inr ⟨x, List.mem_cons_self x xs, rfl⟩
        · exact Or.inl rfl
      · exact Or.inr ⟨r, List.mem_cons_of_mem x hr, h⟩

/-- The loop with no selected rows collects nothing. -/
theorem passResult_of_nil (st : AiState) (packets : List AiRow)
    (h : selectNew packets st.last_id = []) :
    passResult st packets = passInit st packets := by
  unfold passResult
  rw [h]
  rfl

/-- After any `run_once`, the stored high-water mark bounds every packet id
of the table: the mark never decreases, and every id that was past the old
mark is now at or below the new one. -/
theorem run_once_last_id_bounds (st : AiState) (packets : List AiRow) (ok : Bool) :
    st.last_id ≤ (run_once st packets ok).1.last_id
    ∧ ∀ r ∈ packets, st.last_id < r.packet_id →
        r.packet_id ≤ (run_once st packets ok).1.last_id := by
  constructor
  · show st.last_id ≤
      (if (decide (st.last_id < (passResult st packets).max_seen)) = true then
        (passResult st packets).max_seen else st.last_id)
    split <;> rename_i h
    · rw [decide_eq_true_eq] at h
      omega
    · exact le_refl _
  · intro r hr hlt
    have hmem : r ∈ selectNew packets st.last_id := (mem_selectNew _ _ _).mpr ⟨hr, hlt⟩
    have hle : r.packet_id ≤ (passResult st packets).max_seen :=
      fold_passRow_max_ge _ (passInit st packets) r hmem
    show r.packet_id ≤
      (if (decide (st.last_id < (passResult st packets).max_seen)) = true then
        (passResult st packets).max_seen else st.last_id)
    split <;> rename_i h
    · exact hle
    · rw [decide_eq_true_eq] at h
      omega

/-- C3: `INSERT OR IGNORE` under the `(packet_id, tag)` unique index keeps at
most one persisted anomaly row per pair, and re-running the engine over the
same already-evaluated table inserts zero additional rows. -/
theorem anomalies_unique_and_rerun_noop (st : AiState) (packets : List AiRow)
    (ok ok2 : Bool) (h : anomKeysUnique st.anomalies) :
    anomKeysUnique (run_once st packets ok).1.anomalies
    ∧ (run_once (run_once st packets ok).1 packets ok2).1.anomalies =
        (run_once st packets ok).1.anomalies := by
  constructor
  · show anomKeysUnique
      (if (passResult st packets).collected = [] then st.anomalies
       else if ok = true then
        (passResult st packets).collected.foldl insertOrIgnore st.anomalies
       else st.anomalies)
    split
    · exact h
    · split
      · exact anomKeysUnique_foldl _ _ h
      · exact h
  · have hsel : selectNew packets (run_once st packets ok).1.last_id = [] := by
      unfold selectNew
      have hfilter :
          packets.filter
            (fun r => decide ((run_once st packets ok).1.last_id < r.packet_id)) = [] := by
        rw [List.filter_eq_nil_iff]
        intro r hr
        rw [decide_eq_true_eq]
        intro hlt
        have hb := run_once_last_id_bounds st packets ok
        by_cases hr1 : st.last_id < r.packet_id
        · have := hb.2 r hr hr1
          omega
        · have := hb.1
          omega
      rw [hfilter]
      rfl
    show (if (passResult (run_once st packets ok).1 packets).collected = [] then
            (run_once st packets ok).1.anomalies
          else if ok2 = true then
            (passResult (run_once st packets ok).1 packets).collected.foldl
              insertOrIgnore (run_once st packets ok).1.anomalies
          else (run_once st packets ok).1.anomalies) =
        (run_once st packets ok).1.anomalies
    rw [passResult_of_nil _ _ hsel]
    rfl

def stC3 : AiState := ⟨-1, [], emptyWindows, []⟩

def rowsC3 : List AiRow := [⟨0, 100, .intV 7000, .intV 100, .intV 770, .intV 5100⟩]

/-- Witness for C3 on a one-packet table whose 51.00 °C reading fires the
fixed TEMP_HIGH rule. -/
theorem anomalies_unique_and_rerun_noop_witness :
    anomKeysUnique (run_once stC3 rowsC3 true).1.anomalies
    ∧ (run_once (run_once stC3 rowsC3 true).1 rowsC3 true).1.anomalies =
        (run_once stC3 rowsC3 true).1.anomalies :=
  anomalies_unique_and_rerun_noop stC3 rowsC3 true true List.Pairwise.nil

/-- C4: after a pass that examined at least one packet, the in-memory
high-water mark (`max_seen`) equals the greatest packet id examined,
regardless of whether the batch insert succeeds; on insert failure the
anomaly table rolls back but the mark is not re-lowered; and the mark is
persisted via the cursor store exactly when it increased over the loaded
value. -/
theorem highwater_advances_regardless_of_insert (st : AiState) (packets : List AiRow)
    (ok : Bool) (hne : selectNew packets st.last_id ≠ []) :
    ((∃ r ∈ selectNew packets st.last_id,
        (run_once st packets ok).2.max_seen = r.packet_id)
      ∧ ∀ r ∈ selectNew packets st.last_id,
          r.packet_id ≤ (run_once st packets ok).2.max_seen)
    ∧ (run_once st packets false).2.max_seen = (run_once st packets true).2.max_seen
    ∧ (run_once st packets false).1.anomalies = st.anomalies
    ∧ (run_once st packets false).1.last_id = (run_once st packets true).1.last_id
    ∧ ((run_once st packets ok).2.wroteLastId = true ↔
        st.last_id < (run_once st packets ok).2.max_seen) := by
  refine ⟨⟨?_, ?_⟩, rfl, ?_, rfl, ?_⟩
  · rcases fold_passRow_max_mem (selectNew packets st.last_id) (passInit st packets)
      with hm | ⟨r, hr, hm⟩
    · rcases List.exists_mem_of_ne_nil _ hne with ⟨r0, hr0⟩
      have h1 : st.last_id < r0.packet_id := ((mem_selectNew _ _ _).mp hr0).2
      have h2 : r0.packet_id ≤ (passResult st packets).max_seen :=
        fold_passRow_max_ge _ (passInit st packets) r0 hr0
      have h3 : (passResult st packets).max_seen = st.last_id := hm
      omega
    · exact ⟨r, hr, hm⟩
  · intro r hr
    exact fold_passRow_max_ge _ (passInit st packets) r hr
  · unfold run_once
    dsimp only
    split
    · rfl
    · simp
  · exact ⟨of_decide_eq_true, decide_eq_true⟩

def stC4 : AiState := ⟨-1, [], emptyWindows, []⟩

def rowsC4 : List AiRow :=
  [⟨0, 100, .intV 7000, .intV 100, .intV 770, .intV 2000⟩,
   ⟨4, 200, .intV 7000, .intV 100, .intV 770, .intV 2000⟩]

/-- Witness for C4 on a two-packet table (ids 0 and 4) with no prior
checkpoint. -/
theorem highwater_advances_regardless_of_insert_witness :
    ((∃ r ∈ selectNew rowsC4 stC4.last_id,
        (run_once stC4 rowsC4 false).2.max_seen = r.packet_id)
      ∧ ∀ r ∈ selectNew rowsC4 stC4.last_id,
          r.packet_id ≤ (run_once stC4 rowsC4 false).2.max_seen)
    ∧ (run_once stC4 rowsC4 false).2.max_seen = (run_once stC4 rowsC4 true).2.max_seen
    ∧ (run_once stC4 rowsC4 false).1.anomalies = stC4.anomalies
    ∧ (run_once stC4 rowsC4 false).1.last_id = (run_once stC4 rowsC4 true).1.last_id
    ∧ ((run_once stC4 rowsC4 false).2.wroteLastId = true ↔
        stC4.last_id < (run_once stC4 rowsC4 false).2.max_seen) :=
  highwater_advances_regardless_of_insert stC4 rowsC4 false (by decide)

end CubeSat
